import Mathlib

/-!
Shallow embedding of the btrdb Ceph storage provider and ingest coalescer
(`internal/cephprovider/cephprovider.go`, `quasar.go`), together with proofs
about the segment writer, the address allocator, the blob read path, stream
metadata operations, the segment-address cache and the ingest coalescer.

Machine integers are modelled as `Nat`; the Go right shift `>> 24` becomes
division by `2 ^ 24`, and `& 0xFFFFFF` becomes `% 2 ^ 24`.  Byte slices are
`List Nat` (each element standing for one byte).  Fallible Go code returns an
explicit result type whose `panicked` constructor models a call to
`logger.Panic` / a runtime panic (out-of-range slice index, etc.).
-/

/-- Constants from `cephprovider.go`. -/
def MAX_EXPECTED_OBJECT_SIZE : Nat := 20485

/-- `ADDR_LOCK_SIZE = 0x1000000000`: 4096 objects per reserved lock range. -/
def ADDR_LOCK_SIZE : Nat := 0x1000000000

/-- `ADDR_OBJ_SIZE = 0x0001000000`: one 16 MiB object. -/
def ADDR_OBJ_SIZE : Nat := 0x0001000000

/-- `OFFSET_MASK = 0xFFFFFF`; `x & OFFSET_MASK` is modelled as `x % 2^24`. -/
def OFFSET_MASK : Nat := 0xFFFFFF

/-- `R_CHUNKSIZE = 1 << 20`: the 1 MiB read-cache chunk size. -/
def R_CHUNKSIZE : Nat := 1 <<< 20

/-- `WORTH_CACHING = OFFSET_MASK - MAX_EXPECTED_OBJECT_SIZE`. -/
def WORTH_CACHING : Nat := OFFSET_MASK - MAX_EXPECTED_OBJECT_SIZE

/-- `SEGCACHE_SIZE = 1024`. -/
def SEGCACHE_SIZE : Nat := 1024

/-- `WCACHE_SIZE = 1 << 20`: the write cache capacity. -/
def WCACHE_SIZE : Nat := 1 <<< 20

/-- Error codes of the `bte` package surfaced by the storage provider
(the `bte` package itself is not under `src/`; the list of codes follows the
uses in `cephprovider.go` and the taxonomy in the specification, section 7). -/
inductive BTE where
  | NoSuchStream
  | StreamExists
  | SameStream
  | AmbiguousStream
  | AmbiguousTags
  | InvalidCollection
  | InvalidTagKey
  | InvalidTagValue
  | InvalidLimit
  | AnnotationTooBig
  | AnnotationVersionMismatch
  | WrongEndpoint
  | NoSpace
  | InvalidArgument
  | Corrupt
  deriving DecidableEq, Repr

/-- Little-endian decode of the first 8 bytes of a slice, as
`binary.LittleEndian.Uint64` does (the Go function panics when fewer than
8 bytes are available; callers of this model check the length first). -/
def leDecode8 (bs : List Nat) : Nat :=
  (bs.take 8).foldr (fun b acc => b + 256 * acc) 0

/-- Little-endian encode of a value into 8 bytes, as
`binary.LittleEndian.PutUint64`. -/
def leEncode8 (n : Nat) : List Nat :=
  (List.range 8).map (fun i => n / 256 ^ i % 256)

/-! ## Segment writer (`CephSegment`)

The segment state carries the fields of `CephSegment` that the write path
touches, plus a model of the allocator channel: `allocs` is the stream of
addresses the `provideAllocs` goroutine sends, `allocIdx` the number of
allocations this segment has already received.  `flushed` records the
`(wcache_base, bytes)` pairs handed to `h.Write` by `flushWrite`, and `wcap`
models `cap(seg.wcache)` (Go's `append` guarantees `cap ≥ len`; the model
takes the least such capacity when `append` has to grow the slice). -/
structure Seg where
  naddr : Nat
  wcache : List Nat
  wcap : Nat
  wcacheBase : Nat
  warrs : List (List Nat)
  flushed : List (Nat × List Nat)
  allocs : Nat → Nat
  allocIdx : Nat

/-- `CephSegment.flushWrite`: write the cache at `wcache_base`, pin the array
in `warrs`, reset the cache and set its base to the current `naddr`. -/
def flushWrite (s : Seg) : Seg :=
  if s.wcache = [] then s
  else
    { s with
      flushed := s.flushed ++ [(s.wcacheBase, s.wcache)]
      warrs := s.warrs ++ [s.wcache]
      wcache := []
      wcap := WCACHE_SIZE
      wcacheBase := s.naddr }

/-- Result of `CephSegment.Write`.  The Go signature is
`(uint64, error)`; the implementation never returns a non-nil error and
panics (`logger.Panic`) on a non-sequential write, so `panicked` models that
call while `goErr` stands for an error return of the signature. -/
inductive WResult where
  | ok (addr : Nat) (s : Seg)
  | goErr (e : BTE)
  | panicked (msg : String)

/-- The boundary test of `CephSegment.Write`:
`((naddr + MAX_EXPECTED_OBJECT_SIZE + 2) >> 24) != (address >> 24)` with
`naddr = address + len(data) + 2`. -/
def crossCond (address len : Nat) : Prop :=
  (address + len + 2 + MAX_EXPECTED_OBJECT_SIZE + 2) / 2 ^ 24 ≠ address / 2 ^ 24

instance (address len : Nat) : Decidable (crossCond address len) := by
  unfold crossCond; infer_instance

/-- `CephSegment.Write(uuid, address, data)`.  Mirrors the Go body: check
sequentiality, flush if the cache cannot fit `data` plus the 2-byte prefix,
append the little-endian length prefix and the payload, then either move to a
fresh allocation (flushing) when the worst-case next blob would cross the
16 MiB object boundary, or advance `naddr`. -/
def segWrite (s : Seg) (address : Nat) (data : List Nat) : WResult :=
  if address ≠ s.naddr then .panicked "Non-sequential write"
  else
    let s1 := if s.wcache.length + data.length + 2 > s.wcap then flushWrite s else s
    let buf := s1.wcache ++ [data.length % 256, data.length / 256 % 256] ++ data
    let s2 := { s1 with wcache := buf, wcap := max s1.wcap buf.length }
    let naddr := address + data.length + 2
    if (naddr + MAX_EXPECTED_OBJECT_SIZE + 2) / 2 ^ 24 ≠ address / 2 ^ 24 then
      let a := s2.allocs s2.allocIdx
      .ok a (flushWrite { s2 with allocIdx := s2.allocIdx + 1, naddr := a })
    else
      .ok naddr { s2 with naddr := naddr }

/-- `CephStorageProvider.provideAllocs`, in closed form: the producer hands
out `base + k * ADDR_OBJ_SIZE` for `k < 4096` from each reserved lock range
in turn, where `bases i` is the value the `i`-th call to
`obtainBaseAddress` returns.  `allocAt bases n` is the `n`-th address sent
on the `alloc` channel. -/
def allocAt (bases : Nat → Nat) (n : Nat) : Nat :=
  bases (n / 4096) + n % 4096 * ADDR_OBJ_SIZE

example : allocAt (fun i => 0x1000000 + i * ADDR_LOCK_SIZE) 4096 = 0x1001000000 := by decide
example : allocAt (fun i => 0x1000000 + i * ADDR_LOCK_SIZE) 1 = 0x2000000 := by decide

/-! ## Blob read path (`CephStorageProvider.Read`)

`obtainChunk` is modelled as a pure lookup `store : Nat → List Nat` mapping a
chunk-aligned address to the bytes the object store returns for that 1 MiB
chunk (a short object read yields a short list, as `chunk = chunk[0:rc]`
does).  The masks `R_ADDRMASK` / `R_OFFSETMASK` come from a cache source file
of this repository that is not under `src/`.  Modelled from the spec:
chunk A is fetched at `address & ~(1 MiB - 1)` and sliced from
`address & (1 MiB - 1)`, so `addr & R_ADDRMASK` is chunk alignment and
`addr & R_OFFSETMASK` the intra-chunk offset. -/
def chunkAlign (a : Nat) : Nat := a / R_CHUNKSIZE * R_CHUNKSIZE

/-- Intra-chunk offset `addr & R_OFFSETMASK` (modelled from the spec, see
`chunkAlign`). -/
def chunkOff (a : Nat) : Nat := a % R_CHUNKSIZE

/-- Result of `CephStorageProvider.Read`.  The Go signature returns only
`[]byte`; every failure in the body is a panic (`logger.Panic` or a
slice-bounds violation), modelled by `panicked`. -/
inductive RResult where
  | ok (payload : List Nat)
  | panicked (msg : String)
  deriving DecidableEq, Repr

/-- Chunk-B resolution inside the copy loop of `CephStorageProvider.Read`:
use the chunk fetched while decoding a split length prefix when there is one,
otherwise fetch the next 1 MiB chunk now (`ln` is the decoded length,
`chunk1` the remainder of chunk A after the prefix; the copy loop mirrors the
Go code including the `WTUF` panic for `ln > MAX_EXPECTED_OBJECT_SIZE`, the
`chunk2[:ln-copied]` slice bound, the final `ln < 2` panic and the
`buffer[:ln]` bound). -/
def chunk2get (store : Nat → List Nat) (address : Nat) : Option (List Nat) → List Nat
  | some c => c
  | none => store (chunkAlign (address + R_CHUNKSIZE))

/-- Copy phase of `CephStorageProvider.Read` after the length prefix has been
decoded (see the doc comment above `cephRead`). -/
def readCopy (store : Nat → List Nat) (address bufLen ln : Nat)
    (chunk1 : List Nat) (chunk2 : Option (List Nat)) : RResult :=
  if ln > MAX_EXPECTED_OBJECT_SIZE then .panicked "WTUF"
  else
    let copied := min (min ln chunk1.length) bufLen
    if copied < ln then
      let c2 := chunk2get store address chunk2
      if c2.length < ln - copied then .panicked "slice bounds out of range"
      else if ln < 2 then .panicked "This is unexpected"
      else if bufLen < ln then .panicked "slice bounds out of range"
      else .ok (chunk1.take copied ++ c2.take (min (ln - copied) (bufLen - copied)))
    else if ln < 2 then .panicked "This is unexpected"
    else if bufLen < ln then .panicked "slice bounds out of range"
    else .ok (chunk1.take copied)

/-- `CephStorageProvider.Read(uuid, address, buffer)` with `bufLen` the
length of the caller's buffer.  Fetch chunk A, slice from the intra-chunk
offset; decode the 2-byte little-endian length from chunk A when at least two
bytes remain, otherwise take the low byte from chunk A and the high byte from
chunk B; then copy the payload (see `readCopy`). -/
def cephRead (store : Nat → List Nat) (address bufLen : Nat) : RResult :=
  let c1full := store (chunkAlign address)
  if chunkOff address > c1full.length then .panicked "slice bounds out of range"
  else
    let chunk1 := c1full.drop (chunkOff address)
    if chunk1.length < 2 then
      match chunk1 with
      | [] => .panicked "index out of range"
      | b0 :: _ =>
        match store (chunkAlign (address + R_CHUNKSIZE)) with
        | [] => .panicked "index out of range"
        | b1 :: c2rest =>
          readCopy store address bufLen (b0 + 256 * b1) (chunk1.drop 1) (some c2rest)
    else
      match chunk1 with
      | b0 :: b1 :: rest => readCopy store address bufLen (b0 + 256 * b1) rest none
      | _ => .panicked "index out of range"

/-- The length-decode phase of `cephRead` on its own: `some ln` when the read
reaches the `ln > MAX_EXPECTED_OBJECT_SIZE` check with decoded length `ln`,
`none` when it panics before that check. -/
def readDecodeLen (store : Nat → List Nat) (address : Nat) : Option Nat :=
  let c1full := store (chunkAlign address)
  if chunkOff address > c1full.length then none
  else
    let chunk1 := c1full.drop (chunkOff address)
    if chunk1.length < 2 then
      match chunk1 with
      | [] => none
      | b0 :: _ =>
        match store (chunkAlign (address + R_CHUNKSIZE)) with
        | [] => none
        | b1 :: _ => some (b0 + 256 * b1)
    else
      match chunk1 with
      | b0 :: b1 :: _ => some (b0 + 256 * b1)
      | _ => none

/-! ## Stream metadata (`CreateStream`, `SetStreamAnnotation`, `GetStreamInfo`)

The reachable Ceph objects are modelled per kind: `meta` holds the xattrs of
`meta<uuid>` objects, `colOmap` the ordered key/value entries of
`col.<collection>` objects (in key order, as rados enumerates them),
`annObj` the raw bytes of `ann<uuid>` objects, `indexOmap` the entries of the
`index.<hh>` partition objects. -/
structure MetaObj where
  version : Option (List Nat)
  stream : Option String
  deriving DecidableEq, Repr

/-- State of the Ceph pool as seen by the metadata operations. -/
structure CephState where
  meta : List Nat → Option MetaObj
  colOmap : String → List (String × List Nat)
  annObj : List Nat → Option (List Nat)
  indexOmap : Nat → List (String × List Nat)

/-- Character class `[a-z]`. -/
def isLowerCh (c : Char) : Bool := 'a' ≤ c && c ≤ 'z'

/-- Character class `[A-Z]`. -/
def isUpperCh (c : Char) : Bool := 'A' ≤ c && c ≤ 'Z'

/-- Character class `[0-9]`. -/
def isDigitCh (c : Char) : Bool := '0' ≤ c && c ≤ '9'

/-- `collectionRegex = ^[a-z][a-z0-9_.]{0,254}$` (`isValidCollection`, also
`isValidTagKey` via `keysRegex = collectionRegex`). -/
def isValidCollection (s : String) : Bool :=
  match s.toList with
  | [] => false
  | c :: rest =>
    isLowerCh c && rest.length ≤ 254 &&
      rest.all (fun ch => isLowerCh ch || isDigitCh ch || ch == '_' || ch == '.')

/-- `isValidTagKey`: same pattern as collections. -/
def isValidTagKey (s : String) : Bool := isValidCollection s

/-- `valsRegex = ^[a-zA-Z0-9 .-]*$` (`isValidTagValue`). -/
def isValidTagValue (s : String) : Bool :=
  s.toList.all (fun ch =>
    isLowerCh ch || isUpperCh ch || isDigitCh ch || ch == ' ' || ch == '.' || ch == '-')

/-- Lexicographic comparison on character lists, modelling Go byte-wise
string comparison (the strings involved are ASCII). -/
def charListLe : List Char → List Char → Bool
  | [], _ => true
  | _ :: _, [] => false
  | a :: as, b :: bs => if a < b then true else if b < a then false else charListLe as bs

/-- `a <= b` on strings, byte-wise as Go compares them. -/
def strLe (a b : String) : Bool := charListLe a.toList b.toList

/-- Insert a string into a sorted list (step of `sort.Strings`). -/
def insertSorted (x : String) : List String → List String
  | [] => [x]
  | y :: ys => if strLe x y then x :: y :: ys else y :: insertSorted x ys

/-- `sort.Strings`: sort a string list ascending (insertion sort; the order
of the result is all the segment of the Go sort that matters here). -/
def sortStrings : List String → List String
  | [] => []
  | x :: xs => insertSorted x (sortStrings xs)

/-- Canonical tag string: format each pair as `"k@v@"`, sort the formatted
strings (`sort.Strings`), concatenate (`strings.Join(tl, "")`). -/
def tlkeyOf (tags : List (String × String)) : String :=
  String.join (sortStrings (tags.map (fun kv => kv.1 ++ "@" ++ kv.2 ++ "@")))

/-- `SetOmap` on an ordered key/value map: replace or insert the key, keeping
the entries in key order. -/
def omapSet : List (String × List Nat) → String → List Nat → List (String × List Nat)
  | [], k, v => [(k, v)]
  | (k2, v2) :: rest, k, v =>
    if k = k2 then (k, v) :: rest
    else if strLe k k2 then (k, v) :: (k2, v2) :: rest
    else (k2, v2) :: omapSet rest k v

/-- Does the character list `p` lead the character list `s`? -/
def leadChars : List Char → List Char → Bool
  | [], _ => true
  | _ :: _, [] => false
  | a :: as, b :: bs => a == b && leadChars as bs

/-- Does the key `s` start with `p`?  (Byte-wise, as rados filters omap keys
by prefix.) -/
def strLeads (p s : String) : Bool := leadChars p.toList s.toList

/-- The scan `ListOmapValues("col."+collection, "", tlkey, 10, cb)` in
`CreateStream`: the (up to 10) entries of the collection map whose key has
prefix `tl`. -/
def csHits (st : CephState) (collection : String) (tl : String) :
    List (String × List Nat) :=
  ((st.colOmap collection).filter (fun e => strLeads tl e.1)).take 10

/-- Result of `CreateStream`: the updated pool state, or a `bte` error. -/
inductive CSResult where
  | ok (st : CephState)
  | err (e : BTE)

/-- Configuration and external collaborators of `CreateStream`:
`WeHoldWriteLockFor(uuid)`, `bprovider.MaxAnnotationSize`, the murmur3 hash
(external library, opaque here) and `bprovider.SpecialVersionCreated` (the
`bprovider` package is not under `src/`). -/
structure CSEnv where
  weHold : Bool
  maxAnnSize : Nat
  hash : String → Nat
  svcVersion : Nat

/-- `CephStorageProvider.CreateStream(uuid, collection, tags, annotation)`:
validation, the `version`-xattr existence check (`StreamExists`), the
collection-map prefix scan (`SameStream` / `AmbiguousStream`), then creation:
set the collection-map entry, write the annotation object with version
prefix 1, add the collection to its index partition, set the `stream` xattr
and the `version` xattr. -/
def createStream (env : CSEnv) (st : CephState) (uuid : List Nat)
    (collection : String) (tags : List (String × String)) (ann : List Nat) :
    CSResult :=
  if !isValidCollection collection then .err .InvalidCollection
  else if !env.weHold then .err .WrongEndpoint
  else if ann.length > env.maxAnnSize then .err .AnnotationTooBig
  else if !(tags.all fun kv => isValidTagKey kv.1) then .err .InvalidTagKey
  else if !(tags.all fun kv => isValidTagValue kv.2) then .err .InvalidTagValue
  else
    match (st.meta uuid).bind MetaObj.version with
    | some _ => .err .StreamExists
    | none =>
      let tl := tlkeyOf tags
      let hits := csHits st collection tl
      if hits.any (fun e => e.2 == uuid) then .err .SameStream
      else if !hits.isEmpty then .err .AmbiguousStream
      else
        let partition := env.hash collection % 2 ^ 32 / 2 ^ 24
        .ok { st with
          colOmap := fun c =>
            if c = collection then omapSet (st.colOmap c) tl uuid else st.colOmap c
          annObj := fun u =>
            if u = uuid then some (leEncode8 1 ++ ann) else st.annObj u
          indexOmap := fun p =>
            if p = partition then omapSet (st.indexOmap p) collection [46]
            else st.indexOmap p
          meta := fun u =>
            if u = uuid then
              some ⟨some (leEncode8 env.svcVersion), some (collection ++ ";" ++ tl)⟩
            else st.meta u }

/-- Result of `SetStreamAnnotation` (the state is returned alongside, so an
error leaving the pool untouched is visible). -/
inductive AnnResult where
  | ok
  | err (e : BTE)
  | panicked (msg : String)
  deriving DecidableEq, Repr

/-- `CephStorageProvider.SetStreamAnnotation(uuid, aver, ann)`: read the
first 8 bytes of `ann<uuid>` (missing object → `NoSuchStream`, short object →
panic), compare versions, and on success `WriteFull` the object with the
incremented version prefix followed by the annotation bytes. -/
def setStreamAnn (st : CephState) (uuid : List Nat) (aver : Nat)
    (ann : List Nat) : AnnResult × CephState :=
  match st.annObj uuid with
  | none => (.err .NoSuchStream, st)
  | some obj =>
    if obj.length < 8 then (.panicked "Short read on annotation object", st)
    else
      let existingAver := leDecode8 obj
      if existingAver != aver && aver != 0 then
        (.err .AnnotationVersionMismatch, st)
      else
        (.ok, { st with annObj := fun u =>
          if u = uuid then some (leEncode8 (existingAver + 1) ++ ann)
          else st.annObj u })

/-- The stream value `GetStreamInfo` builds (`cephStream`): collection and
tag pairs, the latter in the order the `stream` xattr lists them. -/
structure StreamView where
  collection : String
  tags : List (String × String)
  deriving DecidableEq, Repr

/-- Result of `GetStreamInfo`: the Go signature `(bprovider.Stream, uint64)`
has no error component; a missing stream is `.ok none 0` and malformed
metadata panics. -/
inductive GSIResult where
  | ok (s : Option StreamView) (ver : Nat)
  | panicked (msg : String)
  deriving DecidableEq, Repr

/-- The pairing loop `tmap[tags[i]] = tags[i+1]` for `i += 2`: `none` models
the index-out-of-range panic on an odd number of elements. -/
def pairTags : List String → Option (List (String × String))
  | [] => some []
  | [_] => none
  | k :: v :: rest => (pairTags rest).map (fun l => (k, v) :: l)

/-- `CephStorageProvider.GetStreamInfo(uuid)`: `ListXattrs` on `meta<uuid>`
(`NotFound` → `(nil, 0)`), decode the 8-byte `version` xattr, split the
`stream` xattr once on `;` (`strings.SplitN(_, ";", 2)`), split the tag part
on `@` dropping the trailing element, and pair up the tags. -/
def getStreamInfo (st : CephState) (uuid : List Nat) : GSIResult :=
  match st.meta uuid with
  | none => .ok none 0
  | some m =>
    let vdata := m.version.getD []
    if vdata.length < 8 then .panicked "index out of range"
    else
      let ver := leDecode8 vdata
      let tdata := m.stream.getD ""
      match tdata.splitOn ";" with
      | [] => .panicked "index out of range"
      | [_] => .panicked "index out of range"
      | c :: restParts =>
        let tpart := String.intercalate ";" restParts
        let tagsList := if tpart = "" then [] else (tpart.splitOn "@").dropLast
        match pairTags tagsList with
        | none => .panicked "index out of range"
        | some tl => .ok (some ⟨c, tl⟩) ver

/-! ## Per-stream segment-address cache

`segaddrcache : map[[16]byte]uint64` with its mutex, exercised by
`LockSegment` (lookup-and-delete) and `Unlock` (conditional prune-and-insert).
The map is modelled as an association list whose keys are kept distinct by
construction; its `length` is the map size. -/
abbrev SegCache := List (List Nat × Nat)

/-- `CephStorageProvider.pruneSegCache`: drop the cache wholesale when it has
reached `SEGCACHE_SIZE` entries. -/
def pruneSegCache (c : SegCache) : SegCache :=
  if SEGCACHE_SIZE ≤ c.length then [] else c

/-- Map assignment `segaddrcache[uid] = naddr`. -/
def cacheInsert (c : SegCache) (uid : List Nat) (naddr : Nat) : SegCache :=
  (c.filter (fun e => e.1 != uid)) ++ [(uid, naddr)]

/-- Map deletion `delete(segaddrcache, uid)`. -/
def cacheDelete (c : SegCache) (uid : List Nat) : SegCache :=
  c.filter (fun e => e.1 != uid)

/-- Cache effect of `CephSegment.Unlock`: insert `(uid, naddr)` after
pruning, but only when `naddr & OFFSET_MASK < WORTH_CACHING`. -/
def segUnlockCache (c : SegCache) (uid : List Nat) (naddr : Nat) : SegCache :=
  if naddr % 2 ^ 24 < WORTH_CACHING then cacheInsert (pruneSegCache c) uid naddr
  else c

/-- Cache effect of `CephStorageProvider.LockSegment`: the cached address for
the uuid, if any, is consumed (`delete`). -/
def segLockCache (c : SegCache) (uid : List Nat) : SegCache := cacheDelete c uid

/-- One cache-touching operation. -/
inductive CacheOp where
  | lockOp (uid : List Nat)
  | unlockOp (uid : List Nat) (naddr : Nat)

/-- Apply one operation to the cache. -/
def cacheStep (c : SegCache) : CacheOp → SegCache
  | .lockOp uid => segLockCache c uid
  | .unlockOp uid naddr => segUnlockCache c uid naddr

/-- Run a sequence of lock/unlock operations from the empty cache
(`Initialize` creates the map empty). -/
def cacheRun (ops : List CacheOp) : SegCache := ops.foldl cacheStep []

/-! ## Ingest coalescer (`quasar.go`)

All shared state of one `openTree` is mutated only under its `tree_mutex`
(`InsertValues`, `Flush`, `DeleteRange`, the body the timeout goroutine runs
after `mtx.Lock()`), so an execution is an interleaving of atomic critical
sections, modelled as a step function over events.  Each allocation of a
fresh pending batch (`tr.store = make(...)`) gets a serial number (the index
of the timer it spawns), so batches can be told apart; `committed` is the
sequence of batch serials handed to the tree engine (`tr.InsertValues` inside
`openTree.commit`).  A timer owns its `sigEC` abort channel (capacity 1);
`sig` is whether the channel holds a message. -/
inductive TPhase where
  | armed
  | fired
  | done
  deriving DecidableEq, Repr

/-- One coalesce-timeout goroutine: its abort channel and its progress. -/
structure CTimer where
  sig : Bool
  phase : TPhase
  deriving DecidableEq, Repr

/-- State of one open tree. -/
structure CoState where
  store : Option (Nat × List Nat)
  timers : List CTimer
  committed : List Nat
  deriving Repr

/-- `openTree.commit`: a no-op when the pending batch is empty ("race in the
timeout commit"), otherwise hand the batch to the tree engine and clear it
(`t.store = nil`). -/
def coCommit (st : CoState) : CoState :=
  match st.store with
  | none => st
  | some (srl, rs) =>
    if rs.isEmpty then st
    else { st with store := none, committed := st.committed ++ [srl] }

/-- `tr.sigEC <- true`: put a message in the abort channel of timer `i`. -/
def setSig (ts : List CTimer) (i : Nat) : List CTimer :=
  match ts.get? i with
  | some t => ts.set i { t with sig := true }
  | none => ts

/-- `Quasar.InsertValues` under `tree_mutex`: allocate a fresh batch and
spawn its timer when the store is nil, append the records, and when the batch
has reached `CoalesceMaxPoints`, signal the timer and commit synchronously. -/
def coInsert (maxPts : Nat) (st : CoState) (rs : List Nat) : CoState :=
  match st.store with
  | none =>
    let srl := st.timers.length
    let st1 := { st with store := some (srl, rs),
                         timers := st.timers ++ [⟨false, .armed⟩] }
    if maxPts ≤ rs.length then coCommit { st1 with timers := setSig st1.timers srl }
    else st1
  | some (srl, old) =>
    let recs := old ++ rs
    let st1 := { st with store := some (srl, recs) }
    if maxPts ≤ recs.length then coCommit { st1 with timers := setSig st1.timers srl }
    else st1

/-- The timeout goroutine's `select` takes the `abrt` branch: only possible
while the timer is armed and its channel holds a message; the goroutine
returns without committing. -/
def coAbort (st : CoState) (i : Nat) : CoState :=
  match st.timers.get? i with
  | some ⟨true, .armed⟩ => { st with timers := st.timers.set i ⟨false, .done⟩ }
  | _ => st

/-- The timeout goroutine's `select` takes the `tmt` branch: the interval
elapsed; the goroutine now waits for `tree_mutex`. -/
def coElapse (st : CoState) (i : Nat) : CoState :=
  match st.timers.get? i with
  | some ⟨sg, .armed⟩ => { st with timers := st.timers.set i ⟨sg, .fired⟩ }
  | _ => st

/-- The fired timeout goroutine acquires `tree_mutex` and runs
`tr.commit(q)`. -/
def coTimerCommit (st : CoState) (i : Nat) : CoState :=
  match st.timers.get? i with
  | some ⟨sg, .fired⟩ => coCommit { st with timers := st.timers.set i ⟨sg, .done⟩ }
  | _ => st

/-- `Quasar.Flush` under `tree_mutex` (also the commit step of `DeleteRange`
and `InitiateShutdown`): when the batch is non-empty, signal the timer and
commit. -/
def coFlush (st : CoState) : CoState :=
  match st.store with
  | some (srl, rs) =>
    if rs.isEmpty then st
    else coCommit { st with timers := setSig st.timers srl }
  | none => st

/-- One event of the coalescer interleaving. -/
inductive CoEv where
  | ins (rs : List Nat)
  | abortEv (i : Nat)
  | elapse (i : Nat)
  | timerCommit (i : Nat)
  | flushEv

/-- Apply one event. -/
def coStep (maxPts : Nat) (st : CoState) : CoEv → CoState
  | .ins rs => coInsert maxPts st rs
  | .abortEv i => coAbort st i
  | .elapse i => coElapse st i
  | .timerCommit i => coTimerCommit st i
  | .flushEv => coFlush st

/-- The initial open tree: no pending batch, no timer, nothing committed. -/
def coInit : CoState := ⟨none, [], []⟩

/-- Run an event sequence from the initial state. -/
def coRun (maxPts : Nat) (evs : List CoEv) : CoState :=
  evs.foldl (coStep maxPts) coInit

/-! ## Theorems -/

/-- Helper: `flushWrite` never touches the allocator fields or `naddr`. -/
theorem flushWrite_allocs (s : Seg) :
    (flushWrite s).allocs = s.allocs ∧ (flushWrite s).allocIdx = s.allocIdx ∧
      (flushWrite s).naddr = s.naddr ∧ (flushWrite s).flushed.length ≥ s.flushed.length := by
  unfold flushWrite
  split <;> simp

/-- Helper: after `flushWrite` the write cache is always empty. -/
theorem flushWrite_wcache (s : Seg) : (flushWrite s).wcache = [] := by
  unfold flushWrite
  split
  · next h => exact h
  · rfl

/-- Helper: flushing a non-empty cache emits exactly one write. -/
theorem flushWrite_emits (s : Seg) (h : s.wcache ≠ []) :
    (flushWrite s).flushed = s.flushed ++ [(s.wcacheBase, s.wcache)] := by
  unfold flushWrite
  rw [if_neg h]

/-- C1: a `Write` whose worst-case next blob would cross the 16 MiB object
boundary pulls a fresh allocation from the allocator channel, flushes the
current write buffer, and returns the allocation as the next address; given
that the allocator hands out 16 MiB-aligned addresses above every address
already in use, the returned address lies on a different object than
`expected_addr`. -/
theorem c1_write_boundary_cross (s : Seg) (data : List Nat)
    (hcross : crossCond s.naddr data.length)
    (halign : s.allocs s.allocIdx % 2 ^ 24 = 0)
    (hfresh : s.naddr < s.allocs s.allocIdx) :
    ∃ s2, segWrite s s.naddr data = .ok (s.allocs s.allocIdx) s2 ∧
      s2.naddr = s.allocs s.allocIdx ∧
      s2.allocIdx = s.allocIdx + 1 ∧
      s2.wcache = [] ∧
      s.flushed.length < s2.flushed.length ∧
      s.allocs s.allocIdx / 2 ^ 24 ≠ s.naddr / 2 ^ 24 := by
  have hdiv : s.naddr / 2 ^ 24 < s.allocs s.allocIdx / 2 ^ 24 :=
    Nat.div_lt_div_of_lt_of_dvd (Nat.dvd_of_mod_eq_zero halign) hfresh
  have hA := flushWrite_allocs s
  unfold crossCond at hcross
  unfold segWrite
  rw [if_neg (show ¬s.naddr ≠ s.naddr by simp)]
  dsimp only
  by_cases hf : s.wcache.length + data.length + 2 > s.wcap
  · rw [if_pos hf, hA.1, hA.2.1]
    rw [if_pos hcross]
    refine ⟨_, rfl, ?_, ?_, flushWrite_wcache _, ?_, hdiv.ne'⟩
    · rw [(flushWrite_allocs _).2.2.1]
    · rw [(flushWrite_allocs _).2.1]
    · rw [flushWrite_emits _ (by simp)]
      have hge := hA.2.2.2
      simp only [List.length_append, List.length_cons, List.length_nil]
      omega
  · rw [if_neg hf]
    rw [if_pos hcross]
    refine ⟨_, rfl, ?_, ?_, flushWrite_wcache _, ?_, hdiv.ne'⟩
    · rw [(flushWrite_allocs _).2.2.1]
    · rw [(flushWrite_allocs _).2.1]
    · rw [flushWrite_emits _ (by simp)]
      simp only [List.length_append, List.length_cons, List.length_nil]
      omega

/-- Concrete segment three blobs short of the 16 MiB boundary, with the
allocator about to hand out the base of the next object. -/
def segC1 : Seg :=
  { naddr := 0xFFF000, wcache := [], wcap := WCACHE_SIZE, wcacheBase := 0xFFF000,
    warrs := [], flushed := [], allocs := fun _ => 0x1000000, allocIdx := 0 }

/-- Witness for C1 at a concrete boundary-crossing write. -/
theorem c1_write_boundary_cross_witness :
    crossCond 0xFFF000 3 ∧
      ∃ s2, segWrite segC1 0xFFF000 [5, 6, 7] = .ok 0x1000000 s2 ∧
        s2.naddr = 0x1000000 ∧ s2.wcache = [] := by
  refine ⟨by decide, ?_⟩
  obtain ⟨s2, h1, h2, _, h4, _, _⟩ :=
    c1_write_boundary_cross segC1 [5, 6, 7] (by decide) (by decide) (by decide)
  exact ⟨s2, h1, h2, h4⟩

/-- Concrete segment for the non-sequential write counterexample. -/
def segC3 : Seg :=
  { naddr := 10, wcache := [], wcap := WCACHE_SIZE, wcacheBase := 10,
    warrs := [], flushed := [], allocs := fun _ => 0x1000000, allocIdx := 0 }

/-- C3 counterexample: a non-sequential `Write` (`expected_addr = 11` while
`naddr = 10`) panics via `logger.Panic("Non-sequential write")`; it does not
return the `InvalidArgument` error the claim states. -/
theorem c3_counterexample :
    segWrite segC3 11 [1, 2, 3] = .panicked "Non-sequential write" ∧
      segWrite segC3 11 [1, 2, 3] ≠ WResult.goErr BTE.InvalidArgument := by
  refine ⟨rfl, fun h => ?_⟩
  rw [show segWrite segC3 11 [1, 2, 3] = .panicked "Non-sequential write" from rfl] at h
  exact WResult.noConfusion h

/-- C3 (amended): `Write(uuid, expected_addr, data)` panics with
"Non-sequential write" whenever `expected_addr` differs from the segment's
current `naddr`; the panic precedes every mutation, so no segment state is
produced and the buffer and `naddr` are left unchanged. -/
theorem c3_write_nonsequential (s : Seg) (address : Nat) (data : List Nat)
    (h : address ≠ s.naddr) :
    segWrite s address data = .panicked "Non-sequential write" := by
  unfold segWrite
  rw [if_pos h]

/-- Witness for the amended C3 at a concrete non-sequential write. -/
theorem c3_write_nonsequential_witness :
    11 ≠ segC3.naddr ∧
      segWrite segC3 11 [9] = .panicked "Non-sequential write" :=
  ⟨by decide, c3_write_nonsequential segC3 11 [9] (by decide)⟩

/-- Helper: a sequential `Write` that stays inside the object returns
`address + len + 2` and pulls no allocation. -/
theorem segWrite_nocross (s : Seg) (d : List Nat) (h : ¬crossCond s.naddr d.length) :
    ∃ s2, segWrite s s.naddr d = .ok (s.naddr + d.length + 2) s2 ∧
      s2.naddr = s.naddr + d.length + 2 ∧ s2.allocs = s.allocs ∧
      s2.allocIdx = s.allocIdx := by
  have hA := flushWrite_allocs s
  unfold crossCond at h
  unfold segWrite
  rw [if_neg (show ¬s.naddr ≠ s.naddr by simp)]
  dsimp only
  by_cases hf : s.wcache.length + d.length + 2 > s.wcap
  · rw [if_pos hf, if_neg h]
    exact ⟨_, rfl, rfl, hA.1, hA.2.1⟩
  · rw [if_neg hf, if_neg h]
    exact ⟨_, rfl, rfl, rfl, rfl⟩

/-- Helper: a sequential `Write` that would cross the boundary returns the
next allocation and advances the allocation index. -/
theorem segWrite_cross (s : Seg) (d : List Nat) (h : crossCond s.naddr d.length) :
    ∃ s2, segWrite s s.naddr d = .ok (s.allocs s.allocIdx) s2 ∧
      s2.naddr = s.allocs s.allocIdx ∧ s2.allocs = s.allocs ∧
      s2.allocIdx = s.allocIdx + 1 := by
  have hA := flushWrite_allocs s
  unfold crossCond at h
  unfold segWrite
  rw [if_neg (show ¬s.naddr ≠ s.naddr by simp)]
  dsimp only
  by_cases hf : s.wcache.length + d.length + 2 > s.wcap
  · rw [if_pos hf, hA.1, hA.2.1, if_pos h]
    refine ⟨_, rfl, ?_, ?_, ?_⟩
    · rw [(flushWrite_allocs _).2.2.1]
    · rw [(flushWrite_allocs _).1]
    · rw [(flushWrite_allocs _).2.1]
  · rw [if_neg hf, if_pos h]
    refine ⟨_, rfl, ?_, ?_, ?_⟩
    · rw [(flushWrite_allocs _).2.2.1]
    · rw [(flushWrite_allocs _).1]
    · rw [(flushWrite_allocs _).2.1]

/-- Helper: `provideAllocs` hands out strictly increasing addresses, given
that each reserved lock range starts `ADDR_LOCK_SIZE` past the previous one
(the persisted counter is bumped by `ADDR_LOCK_SIZE` under the advisory lock
in `obtainBaseAddress`). -/
theorem allocAt_strictMono (bases : Nat → Nat)
    (hgap : ∀ i, bases i + ADDR_LOCK_SIZE ≤ bases (i + 1)) :
    StrictMono (allocAt bases) := by
  apply strictMono_nat_of_lt_succ
  intro n
  unfold allocAt ADDR_OBJ_SIZE
  rcases Nat.lt_or_ge (n % 4096) 4095 with h | h
  · have h1 : (n + 1) / 4096 = n / 4096 := by omega
    have h2 : (n + 1) % 4096 = n % 4096 + 1 := by omega
    rw [h1, h2]
    omega
  · have h1 : (n + 1) / 4096 = n / 4096 + 1 := by omega
    have h2 : (n + 1) % 4096 = 0 := by omega
    have hg := hgap (n / 4096)
    unfold ADDR_LOCK_SIZE at hg
    rw [h1, h2]
    omega

/-- C2: for two consecutive sequential `Write` calls returning `a1` then
`a2`, `a2 > a1`; in the non-crossing case `a2 = expected_addr + len + 2`, and
in the crossing case `a2` is the fresh allocation, strictly above every
address the allocator handed out before it in this process.  The allocator is
`allocAt bases` with each reserved lock range `ADDR_LOCK_SIZE` past the
previous; `hfresh` states that the pending allocation lies above the
addresses the segment is currently writing at. -/
theorem c2_write_monotone (s0 : Seg) (d1 d2 : List Nat) (bases : Nat → Nat)
    (hB : s0.allocs = allocAt bases)
    (hgap : ∀ i, bases i + ADDR_LOCK_SIZE ≤ bases (i + 1))
    (hfresh : s0.naddr + d1.length + 2 < allocAt bases s0.allocIdx) :
    ∃ a1 s1 a2 s2,
      segWrite s0 s0.naddr d1 = .ok a1 s1 ∧
      segWrite s1 s1.naddr d2 = .ok a2 s2 ∧
      a1 < a2 ∧
      (¬crossCond a1 d2.length → a2 = a1 + d2.length + 2) ∧
      (crossCond a1 d2.length →
        a2 = allocAt bases s1.allocIdx ∧
          ∀ m, m < s1.allocIdx → allocAt bases m < a2) := by
  have hsm := allocAt_strictMono bases hgap
  by_cases hc1 : crossCond s0.naddr d1.length
  · obtain ⟨s1, hw1, hn1, ha1, hi1⟩ := segWrite_cross s0 d1 hc1
    rw [hB] at hw1 hn1
    by_cases hc2 : crossCond s1.naddr d2.length
    · obtain ⟨s2, hw2, hn2, ha2, hi2⟩ := segWrite_cross s1 d2 hc2
      refine ⟨_, s1, _, s2, hw1, hw2, ?_, ?_, ?_⟩
      · rw [ha1, hB, hi1]
        exact hsm (Nat.lt_succ_self _)
      · intro hno
        rw [← hn1] at hno
        exact absurd hc2 hno
      · intro _
        rw [ha1, hB]
        exact ⟨rfl, fun m hm => hsm hm⟩
    · obtain ⟨s2, hw2, hn2, ha2, hi2⟩ := segWrite_nocross s1 d2 hc2
      refine ⟨_, s1, _, s2, hw1, hw2, ?_, ?_, ?_⟩
      · rw [hn1]
        omega
      · intro _
        rw [hn1]
      · intro hc
        rw [← hn1] at hc
        exact absurd hc hc2
  · obtain ⟨s1, hw1, hn1, ha1, hi1⟩ := segWrite_nocross s0 d1 hc1
    by_cases hc2 : crossCond s1.naddr d2.length
    · obtain ⟨s2, hw2, hn2, ha2, hi2⟩ := segWrite_cross s1 d2 hc2
      refine ⟨_, s1, _, s2, hw1, hw2, ?_, ?_, ?_⟩
      · rw [ha1, hB, hi1]
        exact hfresh
      · intro hno
        rw [← hn1] at hno
        exact absurd hc2 hno
      · intro _
        rw [ha1, hB]
        exact ⟨rfl, fun m hm => hsm hm⟩
    · obtain ⟨s2, hw2, hn2, ha2, hi2⟩ := segWrite_nocross s1 d2 hc2
      refine ⟨_, s1, _, s2, hw1, hw2, ?_, ?_, ?_⟩
      · omega
      · intro _
        rw [hn1]
      · intro hc
        rw [← hn1] at hc
        exact absurd hc hc2

/-- Lock-range bases as `CreateDatabase` plus successive reservations
produce them: `0x1000000`, then steps of `ADDR_LOCK_SIZE`. -/
def basesC2 : Nat → Nat := fun i => 0x1000000 + i * ADDR_LOCK_SIZE

/-- Concrete fresh segment for the C2 witness. -/
def segC2 : Seg :=
  { naddr := 0, wcache := [], wcap := WCACHE_SIZE, wcacheBase := 0,
    warrs := [], flushed := [], allocs := allocAt basesC2, allocIdx := 0 }

/-- Witness for C2 at two concrete consecutive writes. -/
theorem c2_write_monotone_witness :
    (∀ i, basesC2 i + ADDR_LOCK_SIZE ≤ basesC2 (i + 1)) ∧
      ∃ a1 s1 a2 s2,
        segWrite segC2 segC2.naddr [7] = .ok a1 s1 ∧
        segWrite s1 s1.naddr [8, 9] = .ok a2 s2 ∧
        a1 < a2 ∧
        (¬crossCond a1 [8, 9].length → a2 = a1 + [8, 9].length + 2) ∧
        (crossCond a1 [8, 9].length →
          a2 = allocAt basesC2 s1.allocIdx ∧
            ∀ m, m < s1.allocIdx → allocAt basesC2 m < a2) := by
  have hgap : ∀ i, basesC2 i + ADDR_LOCK_SIZE ≤ basesC2 (i + 1) := by
    intro i
    unfold basesC2 ADDR_LOCK_SIZE
    omega
  exact ⟨hgap, c2_write_monotone segC2 [7] [8, 9] basesC2 rfl hgap (by decide)⟩

/-- Helper: one cache operation keeps the cache within `SEGCACHE_SIZE`. -/
theorem cacheStep_le (c : SegCache) (op : CacheOp) (h : c.length ≤ SEGCACHE_SIZE) :
    (cacheStep c op).length ≤ SEGCACHE_SIZE := by
  cases op with
  | lockOp uid =>
    exact le_trans (List.length_filter_le _ _) h
  | unlockOp uid naddr =>
    show (segUnlockCache c uid naddr).length ≤ SEGCACHE_SIZE
    unfold segUnlockCache
    split
    · unfold cacheInsert pruneSegCache
      split
      · simp [SEGCACHE_SIZE]
      · have hf := List.length_filter_le (fun e => e.1 != uid) c
        simp only [List.length_append, List.length_cons, List.length_nil]
        unfold SEGCACHE_SIZE at *
        omega
    · exact h

/-- Helper: running operations from a within-bound cache stays within
bound. -/
theorem cacheFoldl_le (ops : List CacheOp) :
    ∀ c : SegCache, c.length ≤ SEGCACHE_SIZE →
      (ops.foldl cacheStep c).length ≤ SEGCACHE_SIZE := by
  induction ops with
  | nil => intro c h; exact h
  | cons op rest ih =>
    intro c h
    exact ih _ (cacheStep_le c op h)

/-- C8: under any sequence of `LockSegment` / `Unlock` operations the
segment-address cache holds at most `SEGCACHE_SIZE = 1024` entries; an
`Unlock` insertion at capacity first prunes the cache wholesale to size 0;
and `Unlock` inserts only when `naddr & 0xFFFFFF < WORTH_CACHING`, leaving
the cache untouched otherwise. -/
theorem c8_segcache_invariant :
    (∀ ops : List CacheOp, (cacheRun ops).length ≤ SEGCACHE_SIZE) ∧
      (∀ c : SegCache, SEGCACHE_SIZE ≤ c.length → pruneSegCache c = []) ∧
      (∀ (c : SegCache) (uid : List Nat) (naddr : Nat),
        ¬naddr % 2 ^ 24 < WORTH_CACHING → segUnlockCache c uid naddr = c) ∧
      (∀ (c : SegCache) (uid : List Nat) (naddr : Nat),
        naddr % 2 ^ 24 < WORTH_CACHING →
          segUnlockCache c uid naddr = cacheInsert (pruneSegCache c) uid naddr) := by
  refine ⟨fun ops => cacheFoldl_le ops [] (by simp), fun c h => ?_, ?_, ?_⟩
  · unfold pruneSegCache
    rw [if_pos h]
  · intro c uid naddr h
    unfold segUnlockCache
    rw [if_neg h]
  · intro c uid naddr h
    unfold segUnlockCache
    rw [if_pos h]

/-- A full cache: 1024 distinct single-byte uuids. -/
def cacheFullC8 : SegCache := (List.range SEGCACHE_SIZE).map (fun i => ([i], i))

/-- Witness for C8: the bound on a concrete run, pruning of a concrete full
cache, and both `Unlock` behaviours at concrete addresses
(`0xFFFFFF % 2^24 ≥ WORTH_CACHING`, `5 % 2^24 < WORTH_CACHING`). -/
theorem c8_segcache_invariant_witness :
    (cacheRun [CacheOp.unlockOp [1] 5, CacheOp.lockOp [1]]).length ≤ SEGCACHE_SIZE ∧
      pruneSegCache cacheFullC8 = [] ∧
      segUnlockCache [] [2] 0xFFFFFF = [] ∧
      segUnlockCache [] [2] 5 = cacheInsert (pruneSegCache []) [2] 5 := by
  refine ⟨c8_segcache_invariant.1 _, c8_segcache_invariant.2.1 cacheFullC8 (by simp [cacheFullC8]), c8_segcache_invariant.2.2.1 [] [2] 0xFFFFFF (by decide), c8_segcache_invariant.2.2.2 [] [2] 5 (by decide)⟩

/-- Invariant tying the open tree together: committed serials are distinct,
every committed serial belongs to a spawned timer, and the pending batch's
serial is a spawned timer's and is not yet committed. -/
def CoInv (st : CoState) : Prop :=
  st.committed.Nodup ∧
    (∀ c ∈ st.committed, c < st.timers.length) ∧
    (∀ srl rs, st.store = some (srl, rs) → srl < st.timers.length ∧ srl ∉ st.committed)

/-- Helper: signalling an abort channel does not change the timer count. -/
theorem setSig_length (ts : List CTimer) (i : Nat) : (setSig ts i).length = ts.length := by
  unfold setSig
  split <;> simp

/-- Helper: replacing the timers by a list of the same length preserves the
invariant. -/
theorem coInv_timers_congr (st : CoState) (ts2 : List CTimer)
    (hlen : ts2.length = st.timers.length) (h : CoInv st) :
    CoInv { st with timers := ts2 } := by
  obtain ⟨h1, h2, h3⟩ := h
  refine ⟨h1, fun c hc => ?_, fun srl rs heq => ?_⟩
  · simpa [hlen] using h2 c hc
  · have := h3 srl rs heq
    simp only at heq ⊢
    exact ⟨by simpa [hlen] using this.1, this.2⟩

/-- Helper: `openTree.commit` preserves the invariant. -/
theorem coCommit_inv (st : CoState) (h : CoInv st) : CoInv (coCommit st) := by
  obtain ⟨h1, h2, h3⟩ := h
  unfold coCommit
  split
  · exact ⟨h1, h2, h3⟩
  · next srl rs heq =>
    split
    · exact ⟨h1, h2, h3⟩
    · obtain ⟨hlt, hnm⟩ := h3 srl rs heq
      refine ⟨?_, fun c hc => ?_, fun srl2 rs2 heq2 => by simp at heq2⟩
      · rw [List.nodup_append]
        refine ⟨h1, by simp, ?_⟩
        intro a ha hb
        simp only [List.mem_singleton] at hb
        exact hnm (hb ▸ ha)
      · simp only [List.mem_append, List.mem_singleton] at hc
        rcases hc with hc | hc
        · exact h2 c hc
        · simpa [hc] using hlt

/-- Helper: every coalescer event preserves the invariant. -/
theorem coStep_inv (maxPts : Nat) (st : CoState) (ev : CoEv) (h : CoInv st) :
    CoInv (coStep maxPts st ev) := by
  obtain ⟨h1, h2, h3⟩ := h
  cases ev with
  | ins rs =>
    show CoInv (coInsert maxPts st rs)
    unfold coInsert
    split
    · next heq =>
      have hbase : CoInv ⟨some (st.timers.length, rs), st.timers ++ [⟨false, TPhase.armed⟩], st.committed⟩ := by
        refine ⟨h1, fun c hc => ?_, fun srl2 rs2 heq2 => ?_⟩
        · simpa using Nat.lt_succ_of_lt (h2 c hc)
        · simp only [Option.some.injEq, Prod.mk.injEq] at heq2
          refine ⟨by simp [← heq2.1], fun hmem => ?_⟩
          rw [← heq2.1] at hmem
          exact absurd (h2 _ hmem) (lt_irrefl _)
      dsimp only
      split
      · exact coCommit_inv _ (coInv_timers_congr _ _ (by simp [setSig_length]) hbase)
      · exact hbase
    · next srl old heq =>
      have hbase : CoInv { st with store := some (srl, old ++ rs) } := by
        refine ⟨h1, h2, fun srl2 rs2 heq2 => ?_⟩
        simp only [Option.some.injEq, Prod.mk.injEq] at heq2
        exact heq2.1 ▸ h3 srl old heq
      dsimp only
      split
      · exact coCommit_inv _ (coInv_timers_congr _ _ (by simp [setSig_length]) hbase)
      · exact hbase
  | abortEv i =>
    show CoInv (coAbort st i)
    unfold coAbort
    split
    · exact coInv_timers_congr _ _ (by simp) ⟨h1, h2, h3⟩
    · exact ⟨h1, h2, h3⟩
  | elapse i =>
    show CoInv (coElapse st i)
    unfold coElapse
    split
    · exact coInv_timers_congr _ _ (by simp) ⟨h1, h2, h3⟩
    · exact ⟨h1, h2, h3⟩
  | timerCommit i =>
    show CoInv (coTimerCommit st i)
    unfold coTimerCommit
    split
    · exact coCommit_inv _ (coInv_timers_congr _ _ (by simp) ⟨h1, h2, h3⟩)
    · exact ⟨h1, h2, h3⟩
  | flushEv =>
    show CoInv (coFlush st)
    unfold coFlush
    split
    · split
      · exact ⟨h1, h2, h3⟩
      · exact coCommit_inv _ (coInv_timers_congr _ _ (by simp [setSig_length]) ⟨h1, h2, h3⟩)
    · exact ⟨h1, h2, h3⟩

/-- Helper: the invariant holds along any run. -/
theorem coFoldl_inv (maxPts : Nat) (evs : List CoEv) :
    ∀ st, CoInv st → CoInv (evs.foldl (coStep maxPts) st) := by
  induction evs with
  | nil => exact fun st h => h
  | cons ev rest ih => exact fun st h => ih _ (coStep_inv maxPts st ev h)

/-- C9: in any interleaving of inserts (with their synchronous threshold
commits), coalesce-timer events and flushes, no pending batch is handed to
the tree engine twice: the sequence of committed batch serials has no
duplicate, so in particular the timer never commits a batch that was already
committed synchronously. -/
theorem c9_commit_at_most_once (maxPts : Nat) (evs : List CoEv) :
    (coRun maxPts evs).committed.Nodup := by
  have h0 : CoInv coInit := ⟨List.nodup_nil, by simp [coInit], by simp [coInit]⟩
  exact (coFoldl_inv maxPts evs coInit h0).1

/-- Helper: the copy phase returns the first `ln` bytes of the remaining
chunk-A bytes followed by the chunk-B bytes, whenever enough bytes exist,
`2 ≤ ln ≤ MAX_EXPECTED_OBJECT_SIZE` and the buffer is large enough.  `cB` is
the chunk-B remainder actually used: either it was pre-fetched (`c2 = some
cB`) or it is fetched on demand. -/
theorem readCopy_ok (store : Nat → List Nat) (address bufLen ln : Nat)
    (c1 cB : List Nat) (c2 : Option (List Nat))
    (hc2 : c2 = some cB ∨ (c2 = none ∧ cB = store (chunkAlign (address + R_CHUNKSIZE))))
    (hlen : ln ≤ (c1 ++ cB).length)
    (hln2 : 2 ≤ ln) (hmax : ln ≤ MAX_EXPECTED_OBJECT_SIZE) (hbuf : ln ≤ bufLen) :
    readCopy store address bufLen ln c1 c2 = .ok ((c1 ++ cB).take ln) := by
  simp only [List.length_append] at hlen
  unfold readCopy
  rw [if_neg (by omega)]
  dsimp only
  by_cases hcase : min (min ln c1.length) bufLen < ln
  · rw [if_pos hcase]
    have hcop : min (min ln c1.length) bufLen = c1.length := by omega
    have hc1lt : c1.length < ln := by omega
    have hred : chunk2get store address c2 = cB := by
      rcases hc2 with h | ⟨h, hB⟩
      · subst h; rfl
      · subst h; exact hB.symm
    rw [hred, hcop]
    rw [if_neg (by omega)]
    rw [if_neg (by omega)]
    rw [if_neg (by omega)]
    rw [Nat.min_eq_left (by omega : ln - c1.length ≤ bufLen - c1.length)]
    rw [List.take_length, List.take_append_eq_append_take,
      List.take_of_length_le (by omega : c1.length ≤ ln)]
  · rw [if_neg hcase]
    have hcop : min (min ln c1.length) bufLen = ln := by omega
    rw [hcop]
    rw [if_neg (by omega)]
    rw [if_neg (by omega)]
    rw [List.take_append_eq_append_take, Nat.sub_eq_zero_of_le (by omega : ln ≤ c1.length),
      List.take_zero, List.append_nil]

/-- C4: `Read(uuid, address, buf)` decodes the 2-byte little-endian length
`L = lo + 256 * hi` from the bytes at `address` — from chunk A alone when at
least two bytes of it remain past the intra-chunk offset, otherwise the low
byte from chunk A and the high byte from the next chunk — and returns exactly
the `L` payload bytes, which may themselves span the two chunks. -/
theorem c4_read_blob (store : Nat → List Nat) (address bufLen L lo hi : Nat)
    (payload rest : List Nat)
    (hoff : chunkOff address < (store (chunkAlign address)).length)
    (hblob : (store (chunkAlign address)).drop (chunkOff address) ++
        store (chunkAlign (address + R_CHUNKSIZE)) = lo :: hi :: (payload ++ rest))
    (hL : L = lo + 256 * hi)
    (hlen : payload.length = L)
    (hL2 : 2 ≤ L) (hmax : L ≤ MAX_EXPECTED_OBJECT_SIZE) (hbuf : L ≤ bufLen) :
    cephRead store address bufLen = .ok payload := by
  unfold cephRead
  rw [if_neg (by omega)]
  dsimp only
  cases hc1 : (store (chunkAlign address)).drop (chunkOff address) with
  | nil =>
    exfalso
    have hd := congrArg List.length hc1
    rw [List.length_drop] at hd
    simp only [List.length_nil] at hd
    omega
  | cons b0 t1 =>
    rw [hc1] at hblob
    cases t1 with
    | nil =>
      simp only [List.cons_append, List.nil_append, List.cons.injEq] at hblob
      obtain ⟨hb0, hcB⟩ := hblob
      rw [if_pos (by simp)]
      rw [hcB]
      show readCopy store address bufLen (b0 + 256 * hi) [] (some (payload ++ rest)) =
        .ok payload
      have hres := readCopy_ok store address bufLen (b0 + 256 * hi) [] (payload ++ rest)
        (some (payload ++ rest)) (Or.inl rfl)
        (by simp only [List.nil_append, List.length_append]; omega)
        (by omega) (by omega) (by omega)
      rw [hres, List.nil_append, List.take_append_eq_append_take,
        Nat.sub_eq_zero_of_le (by omega : b0 + 256 * hi ≤ payload.length),
        List.take_zero, List.append_nil,
        List.take_of_length_le (by omega : payload.length ≤ b0 + 256 * hi)]
    | cons b1 t2 =>
      simp only [List.cons_append, List.cons.injEq] at hblob
      obtain ⟨hb0, hb1, htail⟩ := hblob
      rw [if_neg (by simp)]
      show readCopy store address bufLen (b0 + 256 * b1) t2 none = .ok payload
      have hres := readCopy_ok store address bufLen (b0 + 256 * b1) t2
        (store (chunkAlign (address + R_CHUNKSIZE))) none (Or.inr ⟨rfl, rfl⟩)
        (by rw [htail]; simp only [List.length_append]; omega)
        (by omega) (by omega) (by omega)
      rw [hres, htail, List.take_append_eq_append_take,
        Nat.sub_eq_zero_of_le (by omega : b0 + 256 * b1 ≤ payload.length),
        List.take_zero, List.append_nil,
        List.take_of_length_le (by omega : payload.length ≤ b0 + 256 * b1)]

/-- Concrete store for the C4 witness: one short chunk at address 0 holding a
blob with length prefix `[2, 0]` and payload `[9, 9]` at offset 5. -/
def storeC4 : Nat → List Nat := fun a => if a = 0 then [0, 0, 0, 0, 0, 2, 0, 9, 9] else []

/-- Witness for C4: reading the concrete blob at address 5 returns exactly
its 2-byte payload. -/
theorem c4_read_blob_witness :
    chunkOff 5 < (storeC4 (chunkAlign 5)).length ∧
      cephRead storeC4 5 10 = .ok [9, 9] :=
  ⟨by decide,
    c4_read_blob storeC4 5 10 2 2 0 [9, 9] [] (by decide) (by decide) (by decide)
      (by decide) (by decide) (by decide) (by decide)⟩

/-- Helper: once the decoded length has passed the
`ln > MAX_EXPECTED_OBJECT_SIZE` check, the copy phase can never produce the
`WTUF` panic (its other exits are different panics or a successful read). -/
theorem readCopy_ne_wtuf (store : Nat → List Nat) (address bufLen ln : Nat)
    (c1 : List Nat) (c2 : Option (List Nat)) (h : ¬ln > MAX_EXPECTED_OBJECT_SIZE) :
    readCopy store address bufLen ln c1 c2 ≠ .panicked "WTUF" := by
  unfold readCopy
  rw [if_neg h]
  dsimp only
  split
  · split
    · decide
    · split
      · decide
      · split
        · decide
        · simp
  · split
    · decide
    · split
      · decide
      · simp

/-- C5 (amended): `Read` panics (`logger.Panic("WTUF: ", ln)`) whenever the
decoded length prefix `L` exceeds `MAX_EXPECTED_OBJECT_SIZE = 20485`, and
passes that check — never raising the `WTUF` panic — otherwise. -/
theorem c5_read_length_check (store : Nat → List Nat) (address bufLen L : Nat)
    (hdec : readDecodeLen store address = some L) :
    (MAX_EXPECTED_OBJECT_SIZE < L → cephRead store address bufLen = .panicked "WTUF") ∧
      (L ≤ MAX_EXPECTED_OBJECT_SIZE → cephRead store address bufLen ≠ .panicked "WTUF") := by
  unfold readDecodeLen at hdec
  unfold cephRead
  by_cases h1 : chunkOff address > (store (chunkAlign address)).length
  · rw [if_pos h1] at hdec
    exact absurd hdec (by simp)
  · rw [if_neg h1] at hdec ⊢
    dsimp only at hdec ⊢
    cases hc1 : (store (chunkAlign address)).drop (chunkOff address) with
    | nil =>
      rw [hc1] at hdec
      simp at hdec
    | cons b0 t1 =>
      rw [hc1] at hdec
      cases t1 with
      | nil =>
        rw [if_pos (by simp)] at hdec ⊢
        cases hcb : store (chunkAlign (address + R_CHUNKSIZE)) with
        | nil =>
          rw [hcb] at hdec
          simp at hdec
        | cons b1 c2rest =>
          rw [hcb] at hdec
          simp only [Option.some.injEq] at hdec
          dsimp only
          rw [hdec]
          constructor
          · intro hgt
            unfold readCopy
            rw [if_pos hgt]
          · intro hle
            exact readCopy_ne_wtuf store address bufLen L _ _ (by omega)
      | cons b1 t2 =>
        rw [if_neg (by simp only [List.length_cons]; omega)] at hdec ⊢
        simp only [Option.some.injEq] at hdec
        dsimp only
        rw [hdec]
        constructor
        · intro hgt
          unfold readCopy
          rw [if_pos hgt]
        · intro hle
          exact readCopy_ne_wtuf store address bufLen L _ _ (by omega)

/-- Concrete store for C5: a blob whose length prefix decodes to
`6 + 256 * 80 = 20486 = MAX_EXPECTED_OBJECT_SIZE + 1`. -/
def storeC5 : Nat → List Nat := fun a => if a = 0 then [6, 80, 1, 2, 3] else []

/-- C5 counterexample: on an over-long length prefix `Read` panics
(`WTUF`); it does not return — there is no error path in its `[]byte`
signature, so in particular no `Corrupt` error is surfaced. -/
theorem c5_counterexample :
    cephRead storeC5 0 30000 = .panicked "WTUF" ∧
      ∀ bs, cephRead storeC5 0 30000 ≠ RResult.ok bs := by
  refine ⟨by decide, fun bs h => ?_⟩
  rw [show cephRead storeC5 0 30000 = .panicked "WTUF" by decide] at h
  exact RResult.noConfusion h

/-- Witness for the amended C5 at the concrete over-long blob. -/
theorem c5_read_length_check_witness :
    readDecodeLen storeC5 0 = some 20486 ∧
      cephRead storeC5 0 30000 = .panicked "WTUF" :=
  ⟨by decide, (c5_read_length_check storeC5 0 30000 20486 (by decide)).1 (by decide)⟩

/-- C6: `CreateStream` with valid inputs: a present `version` xattr fails
with `StreamExists`; otherwise a prefix hit on the collection map carrying
this uuid fails with `SameStream`, a hit set carrying only other uuids fails
with `AmbiguousStream`, and only with no hit does creation proceed. -/
theorem c6_create_stream_checks (env : CSEnv) (st : CephState) (uuid : List Nat)
    (collection : String) (tags : List (String × String)) (ann : List Nat)
    (hcol : isValidCollection collection = true)
    (hwh : env.weHold = true)
    (hann : ann.length ≤ env.maxAnnSize)
    (hkeys : (tags.all fun kv => isValidTagKey kv.1) = true)
    (hvals : (tags.all fun kv => isValidTagValue kv.2) = true) :
    (((st.meta uuid).bind MetaObj.version).isSome →
        createStream env st uuid collection tags ann = .err .StreamExists) ∧
      ((st.meta uuid).bind MetaObj.version = none →
        (((csHits st collection (tlkeyOf tags)).any fun e => e.2 == uuid) = true →
            createStream env st uuid collection tags ann = .err .SameStream) ∧
          (((csHits st collection (tlkeyOf tags)).any fun e => e.2 == uuid) = false →
            csHits st collection (tlkeyOf tags) ≠ [] →
            createStream env st uuid collection tags ann = .err .AmbiguousStream) ∧
          (csHits st collection (tlkeyOf tags) = [] →
            ∃ st2, createStream env st uuid collection tags ann = .ok st2)) := by
  have hanne : ¬ann.length > env.maxAnnSize := by omega
  unfold createStream
  rw [hcol, hwh, hkeys, hvals]
  simp only [Bool.not_true, Bool.false_eq_true, if_false]
  rw [if_neg hanne]
  constructor
  · intro hsome
    obtain ⟨v, hv⟩ := Option.isSome_iff_exists.mp hsome
    rw [hv]
  · intro hnone
    rw [hnone]
    dsimp only
    refine ⟨fun hsame => ?_, fun hnsame hne => ?_, fun hempty => ?_⟩
    · rw [if_pos hsame]
    · rw [if_neg (by rw [hnsame]; exact Bool.false_ne_true)]
      rw [if_pos (by
        cases hcs : csHits st collection (tlkeyOf tags) with
        | nil => exact absurd hcs hne
        | cons a as => rfl)]
    · rw [hempty]
      exact ⟨_, rfl⟩

/-- Environment for the C6 witness. -/
def envC6 : CSEnv := { weHold := true, maxAnnSize := 64, hash := fun _ => 0, svcVersion := 9 }

/-- Pool state for the C6 witness: no stream metadata yet, but the
collection map of "phasor" already has an entry with the canonical tag key
and uuid `[1, 2]`. -/
def stC6 : CephState :=
  { meta := fun _ => none
    colOmap := fun c => if c = "phasor" then [("chan@A@loc@x1@", [1, 2])] else []
    annObj := fun _ => none
    indexOmap := fun _ => [] }

/-- Witness for C6: creating "phasor" with tags `chan=A, loc=x1` and the
already-mapped uuid fails with `SameStream`. -/
theorem c6_create_stream_checks_witness :
    isValidCollection "phasor" = true ∧
      (stC6.meta [1, 2]).bind MetaObj.version = none ∧
      ((csHits stC6 "phasor" (tlkeyOf [("chan", "A"), ("loc", "x1")])).any
        fun e => e.2 == [1, 2]) = true ∧
      createStream envC6 stC6 [1, 2] "phasor" [("chan", "A"), ("loc", "x1")] [] =
        .err .SameStream :=
  ⟨by decide, rfl, by decide,
    ((c6_create_stream_checks envC6 stC6 [1, 2] "phasor" [("chan", "A"), ("loc", "x1")] []
      (by decide) rfl (by decide) (by decide) (by decide)).2 rfl).1 (by decide)⟩

/-- C7: `SetStreamAnnotation(uuid, expected_ver, bytes)`: a missing
annotation object fails with `NoSuchStream`; a version mismatch with a
non-zero expectation fails with `AnnotationVersionMismatch` leaving the pool
unchanged; otherwise — whenever the expectation matches or is 0 — the object
is rewritten in full with version prefix `current + 1` followed by the
bytes. -/
theorem c7_set_stream_ann (st : CephState) (uuid : List Nat) (aver : Nat)
    (ann : List Nat) :
    (st.annObj uuid = none →
        setStreamAnn st uuid aver ann = (.err .NoSuchStream, st)) ∧
      ∀ obj, st.annObj uuid = some obj → 8 ≤ obj.length →
        (leDecode8 obj ≠ aver → aver ≠ 0 →
          setStreamAnn st uuid aver ann = (.err .AnnotationVersionMismatch, st)) ∧
          ((aver = 0 ∨ aver = leDecode8 obj) →
            ∃ st2, setStreamAnn st uuid aver ann = (.ok, st2) ∧
              st2.annObj uuid = some (leEncode8 (leDecode8 obj + 1) ++ ann)) := by
  constructor
  · intro h
    unfold setStreamAnn
    rw [h]
  · intro obj hobj h8
    constructor
    · intro hne haver
      unfold setStreamAnn
      rw [hobj]
      dsimp only
      rw [if_neg (by omega)]
      have hcond : (leDecode8 obj != aver && aver != 0) = true := by
        rw [Bool.and_eq_true, bne_iff_ne, bne_iff_ne]
        exact ⟨hne, haver⟩
      rw [if_pos hcond]
    · intro hv
      unfold setStreamAnn
      rw [hobj]
      dsimp only
      rw [if_neg (by omega)]
      have hcond : (leDecode8 obj != aver && aver != 0) = false := by
        rcases hv with h0 | heq
        · subst h0
          simp
        · rw [heq]
          simp
      rw [if_neg (by rw [hcond]; exact Bool.false_ne_true)]
      refine ⟨_, rfl, ?_⟩
      simp

/-- Pool state for the C7 witness: stream `[3]` has annotation version 7 and
one annotation byte. -/
def stC7 : CephState :=
  { meta := fun _ => none
    colOmap := fun _ => []
    annObj := fun u => if u = [3] then some (leEncode8 7 ++ [120]) else none
    indexOmap := fun _ => [] }

/-- Witness for C7: expecting version 5 while the current version is 7 fails
with `AnnotationVersionMismatch`; expecting 0 succeeds and writes version
8. -/
theorem c7_set_stream_ann_witness :
    setStreamAnn stC7 [3] 5 [120] = (.err .AnnotationVersionMismatch, stC7) ∧
      ∃ st2, setStreamAnn stC7 [3] 0 [120] = (.ok, st2) ∧
        st2.annObj [3] = some (leEncode8 8 ++ [120]) := by
  constructor
  · exact ((c7_set_stream_ann stC7 [3] 5 [120]).2 (leEncode8 7 ++ [120]) rfl
      (by decide)).1 (by decide) (by decide)
  · obtain ⟨st2, h1, h2⟩ := ((c7_set_stream_ann stC7 [3] 0 [120]).2
      (leEncode8 7 ++ [120]) rfl (by decide)).2 (Or.inl rfl)
    refine ⟨st2, h1, ?_⟩
    rw [h2]
    decide

/-- C10: for a uuid whose `meta<uuid>` object does not exist,
`GetStreamInfo` returns a nil stream and version 0 — via its ordinary return
path, there being no error component in its signature at all. -/
theorem c10_get_stream_info_missing (st : CephState) (uuid : List Nat)
    (h : st.meta uuid = none) :
    getStreamInfo st uuid = .ok none 0 := by
  unfold getStreamInfo
  rw [h]

/-- Pool state for the C10 witness: nothing exists. -/
def stC10 : CephState :=
  { meta := fun _ => none
    colOmap := fun _ => []
    annObj := fun _ => none
    indexOmap := fun _ => [] }

/-- Witness for C10 at a concrete uuid with no metadata object. -/
theorem c10_get_stream_info_missing_witness :
    stC10.meta [9] = none ∧ getStreamInfo stC10 [9] = .ok none 0 :=
  ⟨rfl, c10_get_stream_info_missing stC10 [9] rfl⟩
